import Mathlib

/-!
Verification of `hw2_q2.py`: a single pure function `meetup` simulating one
round of pairwise meetings among agents in a simplified epidemic model,
together with its two helpers `_improve` and `_worsen`.
-/

/-- The closed enumeration of health conditions (`Condition` in the source). -/
inductive Condition where
  | CURE
  | HEALTHY
  | SICK
  | DYING
  | DEAD
deriving DecidableEq, Repr

/-- `Agent = namedtuple("Agent", ("name", "category"))`. -/
structure Agent where
  name : String
  category : Condition
deriving DecidableEq, Repr

/-- `_improve`: one-step improvement (DYING → SICK, SICK → HEALTHY, else unchanged). -/
def _improve (cat : Condition) : Condition :=
  if cat = Condition.DYING then Condition.SICK
  else if cat = Condition.SICK then Condition.HEALTHY
  else cat

/-- `_worsen`: one-step worsening (SICK → DYING, DYING → DEAD, else unchanged). -/
def _worsen (cat : Condition) : Condition :=
  if cat = Condition.SICK then Condition.DYING
  else if cat = Condition.DYING then Condition.DEAD
  else cat

/-- The test `a.category in (Condition.HEALTHY, Condition.DEAD)` from `meetup`. -/
def isExempt (a : Agent) : Bool :=
  a.category == Condition.HEALTHY || a.category == Condition.DEAD

/-- The body of the paired branch of the loop in `meetup`: given a pair
`(a, b)` of agents that meet, produce `(new_a, new_b)` following the
if/elif chain of the source. -/
def meetPair (a b : Agent) : Agent × Agent :=
  if a.category = Condition.CURE ∧ ¬ b.category = Condition.CURE then
    (a, { b with category := _improve b.category })
  else if b.category = Condition.CURE ∧ ¬ a.category = Condition.CURE then
    ({ a with category := _improve a.category }, b)
  else if a.category = Condition.CURE ∧ b.category = Condition.CURE then
    (a, b)
  else
    ({ a with category := _worsen a.category }, { b with category := _worsen b.category })

/-- The loop `for a, b in zip_longest(*[iter(to_meet)]*2, fillvalue=None)`:
consecutive pairs are processed with `meetPair`; an odd trailing agent
(`b is None`) is appended unchanged. -/
def meetPairs : List Agent → List Agent
  | [] => []
  | [a] => [a]
  | a :: b :: rest => (meetPair a b).1 :: (meetPair a b).2 :: meetPairs rest

/-- `meetup(agent_listing)`: separate the agents that meet (`to_meet`) from
the HEALTHY/DEAD ones (`untouched`), process the meeting agents pair by
pair, and return `untouched + result`. -/
def meetup (agent_listing : List Agent) : List Agent :=
  let to_meet := agent_listing.filter (fun a => ! isExempt a)
  let untouched := agent_listing.filter (fun a => isExempt a)
  untouched ++ meetPairs to_meet

/-- Two-step list induction matching the recursion pattern of `meetPairs`. -/
theorem twoStepInduction {motive : List Agent → Prop} (h0 : motive [])
    (h1 : ∀ a, motive [a])
    (h2 : ∀ a b rest, motive rest → motive (a :: b :: rest)) :
    ∀ l, motive l
  | [] => h0
  | [a] => h1 a
  | a :: b :: rest => h2 a b rest (twoStepInduction h0 h1 h2 rest)

theorem meetPair_name (a b : Agent) :
    (meetPair a b).1.name = a.name ∧ (meetPair a b).2.name = b.name := by
  unfold meetPair
  split <;> try split <;> try split
  all_goals simp

theorem meetPairs_map_name (l : List Agent) :
    (meetPairs l).map Agent.name = l.map Agent.name := by
  induction l using twoStepInduction with
  | h0 => rfl
  | h1 a => rfl
  | h2 a b rest ih =>
    simp [meetPairs, ih, (meetPair_name a b).1, (meetPair_name a b).2]

theorem meetPairs_length (l : List Agent) : (meetPairs l).length = l.length := by
  have h := congrArg List.length (meetPairs_map_name l)
  simpa using h

theorem meetup_eq (l : List Agent) :
    meetup l = l.filter (fun a => isExempt a)
      ++ meetPairs (l.filter (fun a => ! isExempt a)) := rfl

theorem meetPair_cure_fst (a b : Agent) (h : a.category = Condition.CURE) :
    (meetPair a b).1 = a := by
  by_cases hb : b.category = Condition.CURE <;> simp [meetPair, h, hb]

theorem meetPair_cure_snd (a b : Agent) (h : b.category = Condition.CURE) :
    (meetPair a b).2 = b := by
  by_cases ha : a.category = Condition.CURE <;> simp [meetPair, h, ha]

theorem meetPair_category_cure (a b : Agent) :
    ((meetPair a b).1.category = Condition.CURE ↔ a.category = Condition.CURE) ∧
    ((meetPair a b).2.category = Condition.CURE ↔ b.category = Condition.CURE) := by
  rcases a with ⟨an, ac⟩
  rcases b with ⟨bn, bc⟩
  cases ac <;> cases bc <;> simp [meetPair, _improve, _worsen]

theorem meetPairs_mem_cure :
    ∀ l : List Agent, ∀ a ∈ l, a.category = Condition.CURE → a ∈ meetPairs l := by
  intro l
  induction l using twoStepInduction with
  | h0 => intro a ha _; simp at ha
  | h1 x => intro a ha _; simpa [meetPairs] using ha
  | h2 x y rest ih =>
    intro a ha hc
    rcases List.mem_cons.mp ha with h | h
    · subst h
      exact List.mem_cons.mpr (Or.inl (meetPair_cure_fst a y hc).symm)
    · rcases List.mem_cons.mp h with h' | h'
      · subst h'
        exact List.mem_cons.mpr
          (Or.inr (List.mem_cons.mpr (Or.inl (meetPair_cure_snd x a hc).symm)))
      · exact List.mem_cons.mpr
          (Or.inr (List.mem_cons.mpr (Or.inr (ih a h' hc))))

theorem meetPairs_cure_mem :
    ∀ l : List Agent, ∀ y ∈ meetPairs l, y.category = Condition.CURE → y ∈ l := by
  intro l
  induction l using twoStepInduction with
  | h0 => intro y hy _; simp [meetPairs] at hy
  | h1 x => intro y hy _; simpa [meetPairs] using hy
  | h2 x x' rest ih =>
    intro y hy hc
    rcases List.mem_cons.mp hy with h | h
    · have hx : x.category = Condition.CURE := (meetPair_category_cure x x').1.mp (h ▸ hc)
      have hyx : y = x := by rw [h, meetPair_cure_fst x x' hx]
      rw [hyx]
      exact List.mem_cons_self x (x' :: rest)
    · rcases List.mem_cons.mp h with h' | h'
      · have hx : x'.category = Condition.CURE := (meetPair_category_cure x x').2.mp (h' ▸ hc)
        have hyx : y = x' := by rw [h', meetPair_cure_snd x x' hx]
        rw [hyx]
        exact List.mem_cons.mpr (Or.inr (List.mem_cons_self x' rest))
      · exact List.mem_cons.mpr (Or.inr (List.mem_cons.mpr (Or.inr (ih y h' hc))))

theorem meetPairs_countP_cure (l : List Agent) :
    (meetPairs l).countP (fun a => decide (a.category = Condition.CURE))
      = l.countP (fun a => decide (a.category = Condition.CURE)) := by
  induction l using twoStepInduction with
  | h0 => rfl
  | h1 a => rfl
  | h2 a b rest ih =>
    have h1 : decide ((meetPair a b).1.category = Condition.CURE)
        = decide (a.category = Condition.CURE) :=
      decide_eq_decide.mpr (meetPair_category_cure a b).1
    have h2 : decide ((meetPair a b).2.category = Condition.CURE)
        = decide (b.category = Condition.CURE) :=
      decide_eq_decide.mpr (meetPair_category_cure a b).2
    simp [meetPairs, List.countP_cons, h1, h2, ih]

theorem meetPairs_odd :
    ∀ l : List Agent, l.length % 2 = 1 →
      ∃ l' x, l = l' ++ [x] ∧ meetPairs l = meetPairs l' ++ [x] := by
  intro l
  induction l using twoStepInduction with
  | h0 => intro h; simp at h
  | h1 a => intro _; exact ⟨[], a, rfl, rfl⟩
  | h2 a b rest ih =>
    intro h
    have hr : rest.length % 2 = 1 := by
      simp only [List.length_cons] at h
      omega
    obtain ⟨l', x, he, hm⟩ := ih hr
    exact ⟨a :: b :: l', x, by simp [he], by simp [meetPairs, hm]⟩

/-!
Spec-side model, written from the words of the specification (§4.1) for the
refinement claim: one-step `improve`/`worsen` tables, the four-row Pair
Transition Rule, consecutive pairing with an unpaired tail passed through,
and the result `exempt ++ processed`.
-/

/-- Spec wording: `improve`: DYING → SICK; SICK → HEALTHY; any other value unchanged. -/
def specImprove : Condition → Condition
  | Condition.DYING => Condition.SICK
  | Condition.SICK => Condition.HEALTHY
  | c => c

/-- Spec wording: `worsen`: SICK → DYING; DYING → DEAD; any other value unchanged. -/
def specWorsen : Condition → Condition
  | Condition.SICK => Condition.DYING
  | Condition.DYING => Condition.DEAD
  | c => c

/-- Spec wording: exempt means category is HEALTHY or DEAD. -/
def specExempt (a : Agent) : Bool :=
  a.category == Condition.HEALTHY || a.category == Condition.DEAD

/-- The Pair Transition Rule table of §4.1. -/
def specPairRule (a b : Agent) : Agent × Agent :=
  if a.category = Condition.CURE ∧ b.category = Condition.CURE then
    (a, b)
  else if a.category = Condition.CURE then
    (a, { b with category := specImprove b.category })
  else if b.category = Condition.CURE then
    ({ a with category := specImprove a.category }, b)
  else
    ({ a with category := specWorsen a.category }, { b with category := specWorsen b.category })

/-- Spec step 2–3: walk `eligible` in order, grouping into consecutive pairs;
an odd trailing agent is passed through unchanged. -/
def specProcess : List Agent → List Agent
  | [] => []
  | [a] => [a]
  | a :: b :: rest => (specPairRule a b).1 :: (specPairRule a b).2 :: specProcess rest

/-- Spec step 1 and 4: partition into exempt and eligible, process the
eligible agents, and return exempt followed by the processed agents. -/
def specMeetup (l : List Agent) : List Agent :=
  l.filter (fun a => specExempt a) ++ specProcess (l.filter (fun a => ! specExempt a))

theorem meetPair_eq_specPairRule (a b : Agent) : meetPair a b = specPairRule a b := by
  rcases a with ⟨an, ac⟩
  rcases b with ⟨bn, bc⟩
  cases ac <;> cases bc <;> rfl

theorem meetPairs_eq_specProcess : ∀ l : List Agent, meetPairs l = specProcess l := by
  intro l
  induction l using twoStepInduction with
  | h0 => rfl
  | h1 a => rfl
  | h2 a b rest ih =>
    simp [meetPairs, specProcess, meetPair_eq_specPairRule, ih]

/-- Claim C1: for every input list of agents, `meetup` returns a list of the
same length, and the multiset of `name` fields of the output equals that of
the input (stated as a permutation of the lists of names): no agent is
dropped or duplicated. -/
theorem meetup_conservation (l : List Agent) :
    (meetup l).length = l.length ∧
    ((meetup l).map Agent.name).Perm (l.map Agent.name) := by
  have hperm := List.filter_append_perm (fun a => isExempt a) l
  constructor
  · have hlen := hperm.length_eq
    rw [meetup_eq, List.length_append, meetPairs_length]
    simpa [List.length_append] using hlen
  · have h1 : (meetup l).map Agent.name
        = ((l.filter (fun a => isExempt a)).map Agent.name)
          ++ ((l.filter (fun a => ! isExempt a)).map Agent.name) := by
      rw [meetup_eq, List.map_append, meetPairs_map_name]
    rw [h1, ← List.map_append]
    exact hperm.map Agent.name

/-- Claim C2: when `meetup` processes a pair in which neither agent is CURE,
each agent's category is worsened independently by `_worsen`, which maps
SICK to DYING, DYING to DEAD and leaves any other value unchanged; in
particular a (SICK, SICK) pair becomes (DYING, DYING) and a (SICK, DYING)
pair becomes (DYING, DEAD). -/
theorem meetup_nonCure_pair_worsens (a b : Agent) (rest : List Agent)
    (ha : a.category ≠ Condition.CURE) (hb : b.category ≠ Condition.CURE) :
    meetPairs (a :: b :: rest)
      = { a with category := _worsen a.category }
        :: { b with category := _worsen b.category } :: meetPairs rest
    ∧ _worsen Condition.SICK = Condition.DYING
    ∧ _worsen Condition.DYING = Condition.DEAD
    ∧ (∀ c : Condition, c ≠ Condition.SICK → c ≠ Condition.DYING → _worsen c = c)
    ∧ (∀ n m : String, meetPair ⟨n, Condition.SICK⟩ ⟨m, Condition.SICK⟩
        = (⟨n, Condition.DYING⟩, ⟨m, Condition.DYING⟩))
    ∧ (∀ n m : String, meetPair ⟨n, Condition.SICK⟩ ⟨m, Condition.DYING⟩
        = (⟨n, Condition.DYING⟩, ⟨m, Condition.DEAD⟩)) := by
  refine ⟨?_, rfl, rfl, ?_, ?_, ?_⟩
  · simp [meetPairs, meetPair, ha, hb]
  · intro c h1 h2
    simp [_worsen, h1, h2]
  · intro n m; rfl
  · intro n m; rfl

theorem meetup_nonCure_pair_worsens_witness :
    meetPairs [⟨"a", Condition.SICK⟩, ⟨"b", Condition.DYING⟩]
      = [⟨"a", Condition.DYING⟩, ⟨"b", Condition.DEAD⟩] := by
  have h := (meetup_nonCure_pair_worsens ⟨"a", Condition.SICK⟩ ⟨"b", Condition.DYING⟩ []
    (by decide) (by decide)).1
  simpa [meetPairs, _worsen] using h

/-- Claim C3: when `meetup` processes a pair in which exactly one agent is
CURE, the CURE agent is unchanged and the other agent's category is improved
by `_improve` (DYING to SICK, SICK to HEALTHY); pairing CURE with SICK
yields (CURE, HEALTHY), CURE with DYING yields (CURE, SICK), and CURE with
CURE yields (CURE, CURE). -/
theorem meetup_cure_pairing (a b : Agent) (rest : List Agent) :
    (a.category = Condition.CURE → b.category ≠ Condition.CURE →
      meetPairs (a :: b :: rest)
        = a :: { b with category := _improve b.category } :: meetPairs rest)
    ∧ (b.category = Condition.CURE → a.category ≠ Condition.CURE →
      meetPairs (a :: b :: rest)
        = { a with category := _improve a.category } :: b :: meetPairs rest)
    ∧ (a.category = Condition.CURE → b.category = Condition.CURE →
      meetPairs (a :: b :: rest) = a :: b :: meetPairs rest)
    ∧ _improve Condition.DYING = Condition.SICK
    ∧ _improve Condition.SICK = Condition.HEALTHY
    ∧ (∀ n m : String, meetPair ⟨n, Condition.CURE⟩ ⟨m, Condition.SICK⟩
        = (⟨n, Condition.CURE⟩, ⟨m, Condition.HEALTHY⟩))
    ∧ (∀ n m : String, meetPair ⟨n, Condition.CURE⟩ ⟨m, Condition.DYING⟩
        = (⟨n, Condition.CURE⟩, ⟨m, Condition.SICK⟩))
    ∧ (∀ n m : String, meetPair ⟨n, Condition.CURE⟩ ⟨m, Condition.CURE⟩
        = (⟨n, Condition.CURE⟩, ⟨m, Condition.CURE⟩)) := by
  refine ⟨?_, ?_, ?_, rfl, rfl, ?_, ?_, ?_⟩
  · intro h1 h2
    simp [meetPairs, meetPair, h1, h2]
  · intro h1 h2
    simp [meetPairs, meetPair, h1, h2]
  · intro h1 h2
    simp [meetPairs, meetPair, h1, h2]
  · intro n m; rfl
  · intro n m; rfl
  · intro n m; rfl

theorem meetup_cure_pairing_witness :
    meetPairs [⟨"x", Condition.CURE⟩, ⟨"y", Condition.SICK⟩]
      = [⟨"x", Condition.CURE⟩, ⟨"y", Condition.HEALTHY⟩] := by
  have h := (meetup_cure_pairing ⟨"x", Condition.CURE⟩ ⟨"y", Condition.SICK⟩ []).1
    rfl (by decide)
  simpa [meetPairs, _improve] using h

/-- Claim C4: every agent of the input whose category is CURE appears
unchanged (hence still with category CURE) in the output of `meetup`,
regardless of position, partner, or the parity of the eligible subset. -/
theorem meetup_cure_invariant (l : List Agent) (a : Agent) (hmem : a ∈ l)
    (hc : a.category = Condition.CURE) : a ∈ meetup l := by
  have hne : isExempt a = false := by simp [isExempt, hc]
  have h1 : a ∈ l.filter (fun x => ! isExempt x) := by
    simp [List.mem_filter, hmem, hne]
  have h2 : a ∈ meetPairs (l.filter (fun x => ! isExempt x)) :=
    meetPairs_mem_cure _ a h1 hc
  rw [meetup_eq, List.mem_append]
  exact Or.inr h2

theorem meetup_cure_invariant_witness :
    (⟨"d", Condition.CURE⟩ : Agent) ∈ meetup [⟨"d", Condition.CURE⟩] :=
  meetup_cure_invariant [⟨"d", Condition.CURE⟩] ⟨"d", Condition.CURE⟩
    (List.mem_singleton.mpr rfl) rfl

/-- Claim C5: every agent of the input whose category is HEALTHY or DEAD
appears in the output of `meetup` completely unchanged (the very same
name/category value is a member of the output). -/
theorem meetup_exempt_invariant (l : List Agent) (a : Agent) (hmem : a ∈ l)
    (h : a.category = Condition.HEALTHY ∨ a.category = Condition.DEAD) :
    a ∈ meetup l := by
  have hx : isExempt a = true := by
    rcases h with h | h <;> simp [isExempt, h]
  have h1 : a ∈ l.filter (fun x => isExempt x) := by
    simp [List.mem_filter, hmem, hx]
  rw [meetup_eq, List.mem_append]
  exact Or.inl h1

theorem meetup_exempt_invariant_witness :
    (⟨"c", Condition.HEALTHY⟩ : Agent) ∈ meetup [⟨"c", Condition.HEALTHY⟩] :=
  meetup_exempt_invariant [⟨"c", Condition.HEALTHY⟩] ⟨"c", Condition.HEALTHY⟩
    (List.mem_singleton.mpr rfl) (Or.inl rfl)

/-- Claim C6: if the eligible subset (agents whose category is not HEALTHY
and not DEAD, in original relative order) has odd length, the last eligible
agent is the last element of the output of `meetup`, unchanged. -/
theorem meetup_odd_one_out (l : List Agent)
    (h : (l.filter (fun a => ! isExempt a)).length % 2 = 1) :
    (meetup l).getLast? = (l.filter (fun a => ! isExempt a)).getLast? := by
  obtain ⟨l', x, he, hm⟩ := meetPairs_odd _ h
  have h1 : meetup l = (l.filter (fun a => isExempt a) ++ meetPairs l') ++ [x] := by
    rw [meetup_eq, hm, List.append_assoc]
  rw [h1, List.getLast?_concat, he, List.getLast?_concat]

theorem meetup_odd_one_out_witness :
    (meetup [⟨"d", Condition.CURE⟩]).getLast?
      = (([⟨"d", Condition.CURE⟩] : List Agent).filter (fun a => ! isExempt a)).getLast? :=
  meetup_odd_one_out [⟨"d", Condition.CURE⟩] (by decide)

/-- Claim C7: the output of `meetup` is exactly the exempt agents in their
original relative order followed by the processed eligible agents emitted
pair-by-pair, the unpaired trailing agent last — i.e. `meetup` coincides
with the algorithm stated in the specification (`specMeetup`). -/
theorem meetup_refines_spec (l : List Agent) : meetup l = specMeetup l := by
  rw [meetup_eq, specMeetup, meetPairs_eq_specProcess]
  simp [isExempt, specExempt]

/-- Claim C8: on the concrete input [a SICK, b DYING, c HEALTHY, d CURE],
`meetup` returns [c HEALTHY, a DYING, b DEAD, d CURE]. -/
theorem meetup_concrete_scenario :
    meetup [⟨"a", Condition.SICK⟩, ⟨"b", Condition.DYING⟩,
            ⟨"c", Condition.HEALTHY⟩, ⟨"d", Condition.CURE⟩]
      = [⟨"c", Condition.HEALTHY⟩, ⟨"a", Condition.DYING⟩,
         ⟨"b", Condition.DEAD⟩, ⟨"d", Condition.CURE⟩] := rfl

/-- Claim C9: no agent that is not CURE in the input becomes CURE in the
output of `meetup`: every CURE agent of the output is an unchanged CURE
agent of the input, and the number of CURE agents is preserved. -/
theorem meetup_cure_count (l : List Agent) :
    ((meetup l).countP (fun a => decide (a.category = Condition.CURE))
      = l.countP (fun a => decide (a.category = Condition.CURE)))
    ∧ ∀ a ∈ meetup l, a.category = Condition.CURE → a ∈ l := by
  constructor
  · have hperm := List.filter_append_perm (fun a => isExempt a) l
    rw [meetup_eq, List.countP_append, meetPairs_countP_cure, ← List.countP_append]
    exact hperm.countP_eq _
  · intro a ha hc
    rw [meetup_eq, List.mem_append] at ha
    rcases ha with h | h
    · exact (List.mem_filter.mp h).1
    · exact (List.mem_filter.mp (meetPairs_cure_mem _ a h hc)).1

theorem meetup_cure_count_witness :
    (⟨"d", Condition.CURE⟩ : Agent) ∈ [(⟨"d", Condition.CURE⟩ : Agent)] :=
  (meetup_cure_count [⟨"d", Condition.CURE⟩]).2 ⟨"d", Condition.CURE⟩
    (List.mem_singleton.mpr rfl) rfl

/-- Claim C10 is false as stated: at the explicit input DYING, `_worsen`
gives DEAD and `_improve` leaves DEAD unchanged, so the round trip returns
DEAD, not DYING. -/
theorem improve_worsen_inverse_cex :
    _improve (_worsen Condition.DYING) = Condition.DEAD ∧
    ¬ _improve (_worsen Condition.DYING) = Condition.DYING := by
  exact ⟨rfl, by decide⟩

/-- Claim C10 (amended): one step of `_worsen` followed by one step of
`_improve` returns the original condition for SICK, but for DYING the round
trip ends at DEAD, since `_worsen DYING = DEAD` and `_improve` leaves DEAD
unchanged. -/
theorem improve_worsen_sick (c : Condition) (h : c = Condition.SICK) :
    _improve (_worsen c) = c ∧ _improve (_worsen Condition.DYING) = Condition.DEAD := by
  subst h
  exact ⟨rfl, rfl⟩

theorem improve_worsen_sick_witness :
    _improve (_worsen Condition.SICK) = Condition.SICK :=
  (improve_worsen_sick Condition.SICK rfl).1
